import Mathlib

/-!
Verification of the `Config` class of `src/config.ts` (casbin model-text
parser).  JavaScript strings are modelled as `List Char`; the `Map`-based
two-level store is modelled as an association list; thrown exceptions are
modelled with `Except`.  The parser state additionally carries the ordered
trace of `addConfig` insertions (`writes`), used to state the round-trip
("last value written") property.
-/

namespace Config

/-- A JavaScript string, modelled as its list of characters. -/
abbrev Str := List Char

/-- Embed a Lean string literal as a `Str`. -/
def str (s : String) : Str := s.toList

/-- The whitespace class trimmed by JavaScript `String.prototype.trim`
(restricted to its ASCII members, the only ones relevant here). -/
def isJsWS (c : Char) : Bool :=
  c = ' ' || c = '\t' || c = '\n' || c = '\r' || c = '\x0b' || c = '\x0c'

/-- JavaScript `s.trim()`. -/
def trim (s : Str) : Str :=
  ((s.dropWhile isJsWS).reverse.dropWhile isJsWS).reverse

/-- JavaScript `s.toLowerCase()` (ASCII). -/
def jsLower (s : Str) : Str := s.map Char.toLower

/-- JavaScript `s.indexOf(c)` for a single character, `none` standing for `-1`. -/
def indexOfChar (s : Str) (c : Char) : Option Nat := s.findIdx? (· = c)

/-- `isPre p s` is true when `p` is a leading segment of `s`. -/
def isPre : Str → Str → Bool
  | [], _ => true
  | _ :: _, [] => false
  | a :: as, b :: bs => a = b && isPre as bs

/-- Index of the first occurrence of `sub` inside `s` (JavaScript
`s.indexOf(sub)`), `none` standing for `-1`. -/
def findSubIdx (sub : Str) : Str → Option Nat
  | [] => if isPre sub [] then some 0 else none
  | c :: rest => if isPre sub (c :: rest) then some 0 else (findSubIdx sub rest).map (· + 1)

/-- Whether `sub` occurs inside `s` (JavaScript `s.includes(sub)`). -/
def hasSub (sub s : Str) : Bool := (findSubIdx sub s).isSome

/-- Fuelled worker for `jsSplitOn`. -/
def splitSeqAux (sep : Str) : Nat → Str → List Str
  | 0, s => [s]
  | fuel + 1, s =>
    match findSubIdx sep s with
    | none => [s]
    | some i => s.take i :: splitSeqAux sep fuel (s.drop (i + sep.length))

/-- JavaScript `s.split(sep)` for a non-empty separator string. -/
def jsSplitOn (sep s : Str) : List Str := splitSeqAux sep (s.length + 1) s

/-- JavaScript `s.split(c)` for a single-character separator. -/
def jsSplitChar (sep : Char) : Str → List Str
  | [] => [[]]
  | c :: rest =>
    if c = sep then [] :: jsSplitChar sep rest
    else
      match jsSplitChar sep rest with
      | [] => [[c]]
      | h :: t => (c :: h) :: t

/-- `Config.DEFAULT_SECTION`. -/
def DEFAULT_SECTION : Str := str "default"

/-- One section: key → value, as an association list (a JS `Map`). -/
abbrev Sect := List (Str × Str)

/-- `this.data`: section name → section. -/
abbrev Data := List (Str × Sect)

/-- `Map.prototype.set`: replace in place or append. -/
def setAssoc {α : Type} : List (Str × α) → Str → α → List (Str × α)
  | [], k, v => [(k, v)]
  | (k', v') :: rest, k, v =>
    if k' = k then (k, v) :: rest else (k', v') :: setAssoc rest k v

/-- `Map.prototype.get`. -/
def getAssoc {α : Type} : List (Str × α) → Str → Option α
  | [], _ => none
  | (k', v') :: rest, k => if k' = k then some v' else getAssoc rest k

/-- Two-level lookup into the store. -/
def lookup2 (d : Data) (s k : Str) : Option Str :=
  (getAssoc d s).bind (fun item => getAssoc item k)

/-- `Config.addConfig(section, option, value)`: empty section name is replaced
by the default section; the key is then set (overwriting) in that section. -/
def addConfig (data : Data) (sect option value : Str) : Data :=
  let sect := if sect = [] then DEFAULT_SECTION else sect
  let item := (getAssoc data sect).getD []
  setAssoc data sect (setAssoc item option value)

/-- The section name actually used by `addConfig` for a given argument. -/
def normSect (sect : Str) : Str := if sect = [] then DEFAULT_SECTION else sect

/-- The whitelist `validProps` of `Config.validateMatcher`. -/
def validProps : List Str :=
  [str "r.sub", str "r.obj", str "r.act", str "p.sub", str "p.obj", str "p.act", str "p.eft"]

/-- JavaScript regex `\w`. -/
def isWordChar (c : Char) : Bool := c.isAlpha || c.isDigit || c = '_'

/-- Fuelled worker for `scanProps` (the fuel only serves structural
termination; `scanProps` always supplies enough). -/
def scanPropsAux : Nat → Str → List Str
  | 0, _ => []
  | _, [] => []
  | fuel + 1, c :: '.' :: rest2 =>
    if c = 'r' || c = 'p' then
      let w := rest2.takeWhile isWordChar
      if w = [] then scanPropsAux fuel ('.' :: rest2)
      else (c :: '.' :: w) :: scanPropsAux fuel (rest2.drop w.length)
    else scanPropsAux fuel ('.' :: rest2)
  | fuel + 1, _ :: rest => scanPropsAux fuel rest

/-- All matches of the global regex `[rp]\.\w+` in left-to-right order
(`matcherStr.match(/[rp]\.\w+/g)`): a match needs `r` or `p`, a literal dot
and a non-empty run of word characters, and scanning resumes after it;
otherwise the scan advances by one character. -/
def scanProps (s : Str) : List Str := scanPropsAux s.length s

/-- `errors.join(', ')`. -/
def joinComma (l : List Str) : Str := List.intercalate (str ", ") l

/-- The `errors` array accumulated by `Config.validateMatcher`, in order. -/
def matcherErrors (matcherStr : Str) : List Str :=
  let usedProps := scanProps matcherStr
  let invalidProps := usedProps.filter (fun p => !(validProps.contains p))
  (if invalidProps = [] then []
   else [str "Invalid properties: " ++ joinComma invalidProps]) ++
  (if hasSub (str "..") matcherStr then [str "Found extra dots"] else []) ++
  (if (trim matcherStr).getLast? = some ',' then [str "Unnecessary comma"] else []) ++
  (if matcherStr.count '(' ≠ matcherStr.count ')' then [str "Mismatched parentheses"] else [])

/-- `Config.validateMatcher`: throws the comma-joined error list when any
defect was found.  (The line-number argument is accepted, as in the source,
but does not appear in the message.) -/
def validateMatcher (matcherStr : Str) (lineNumber : Nat) : Except Str Unit :=
  let errors := matcherErrors matcherStr
  if errors = [] then .ok () else .error (joinComma errors)

/-- The mutable state of `Config.parseBuffer`, plus the ghost trace `writes`
of the `(section, key, value)` triples passed to `addConfig`, in order. -/
structure ParseState where
  data : Data
  sect : Str
  currentLine : Str
  seenSections : List Str
  writes : List (Str × Str × Str)
deriving Repr, DecidableEq

/-- The initial parse state. -/
def initState : ParseState := ⟨[], [], [], [], []⟩

/-- Decimal rendering of a line number. -/
def natStr (n : Nat) : Str := (toString n).toList

/-- `Config.write(section, lineNum, line)`: split at the first `=` (throwing
`parse the content error : line <n>` when absent), trim key and value,
validate the value when the active section is `matchers`, then insert. -/
def write (st : ParseState) (lineNum : Nat) (line : Str) : Except Str ParseState :=
  match indexOfChar line '=' with
  | none => .error (str "parse the content error : line " ++ natStr lineNum)
  | some equalIndex =>
    let key := trim (line.take equalIndex)
    let value := trim (line.drop (equalIndex + 1))
    match (if st.sect = str "matchers" then validateMatcher value lineNum else .ok ()) with
    | .error e => .error e
    | .ok _ =>
      .ok { st with data := addConfig st.data st.sect key value,
                    writes := st.writes ++ [(st.sect, key, value)] }

/-- Comment stripping: slice at the first `#`, then at the first `;`. -/
def stripComment (n : Str) : Str :=
  let n1 := match indexOfChar n '#' with | some i => n.take i | none => n
  match indexOfChar n1 ';' with | some i => n1.take i | none => n1

/-- The `Duplicated section` error message. -/
def dupMsg (s : Str) (n : Nat) : Str :=
  str "Duplicated section: " ++ s ++ str " at line " ++ natStr n

/-- The body of the `forEach` in `Config.parseBuffer`, for one line `n` at
zero-based `index`; `linesCount` is the number of (non-empty) lines. -/
def processLine (linesCount : Nat) (st : ParseState) (n : Str) (index : Nat) :
    Except Str ParseState :=
  let line := trim (stripComment n)
  if line = [] then .ok st
  else
    let lineNumber := index + 1
    if line.head? = some '[' ∧ line.getLast? = some ']' then
      match (if st.currentLine ≠ [] then
               (write st (lineNumber - 1) st.currentLine).map
                 (fun st1 => { st1 with currentLine := [] })
             else .ok st) with
      | .error e => .error e
      | .ok st1 =>
        let sect := (line.drop 1).dropLast
        if st1.seenSections.contains sect then .error (dupMsg sect lineNumber)
        else .ok { st1 with sect := sect, seenSections := sect :: st1.seenSections }
    else
      let cur :=
        if line.getLast? = some '\\' then st.currentLine ++ trim line.dropLast
        else st.currentLine ++ line
      let shouldWrite := line.getLast? ≠ some '\\'
      if shouldWrite ∨ lineNumber = linesCount then
        (write st lineNumber cur).map (fun st1 => { st1 with currentLine := [] })
      else .ok { st with currentLine := cur }

/-- Sequencing of `processLine` over the enumerated lines. -/
def runLines (linesCount : Nat) (st : ParseState) :
    List (Nat × Str) → Except Str ParseState
  | [] => .ok st
  | (idx, n) :: rest =>
    match processLine linesCount st n idx with
    | .error e => .error e
    | .ok st1 => runLines linesCount st1 rest

/-- `buf.toString().split('\n').filter((v) => v)`. -/
def splitLines (text : Str) : List Str :=
  (jsSplitChar '\n' text).filter (fun v => v ≠ [])

/-- `Config.parseBuffer`, returning the full final state. -/
def parseBufferSt (text : Str) : Except Str ParseState :=
  let lines := splitLines text
  runLines lines.length initState lines.enum

/-- `Config.parseBuffer`: the resulting store, or the thrown message. -/
def parseBuffer (text : Str) : Except Str Data := (parseBufferSt text).map (·.data)

/-- `Config.newConfigFromText`. -/
def newConfigFromText (text : Str) : Except Str Data := parseBuffer text

/-- `Config.get(key)`: lower-case the key, split on `::` (default section when
absent), and look up; missing section/key, like a stored empty string, yields
the empty string (`itemChild ? itemChild : ''`). -/
def get (data : Data) (key : Str) : Str :=
  let keys := jsSplitOn (str "::") (jsLower key)
  let sect := if keys.length ≥ 2 then keys.headD [] else DEFAULT_SECTION
  let option := if keys.length ≥ 2 then (keys.get? 1).getD [] else keys.headD []
  match lookup2 data sect option with
  | none => []
  | some v => if v = [] then [] else v

/-- `Config.getString`. -/
def getString (data : Data) (key : Str) : Str := get data key

/-- `Config.getBool`: `!!this.get(key)` — truthiness of the string. -/
def getBool (data : Data) (key : Str) : Bool := !(get data key).isEmpty

/-- `Config.getStrings`: `this.get(key).split(',')`. -/
def getStrings (data : Data) (key : Str) : List Str := jsSplitChar ',' (get data key)

/-- Numeric value of a digit string. -/
def digitsToNat (ds : Str) : Nat := ds.foldl (fun a c => a * 10 + (c.toNat - '0'.toNat)) 0

/-- Drop one optional leading sign character. -/
def stripSign (s : Str) : Str :=
  match s with | '+' :: r => r | '-' :: r => r | r => r

/-- `Number.parseInt(s, 10)`: `none` is the `NaN` sentinel. -/
def jsParseInt (s : Str) : Option Int :=
  let s1 := s.dropWhile isJsWS
  let sign : Int := match s1 with | '-' :: _ => -1 | _ => 1
  let rest := stripSign s1
  let ds := rest.takeWhile Char.isDigit
  if ds = [] then none else some (sign * (digitsToNat ds : Int))

/-- The result type of `Number.parseFloat`: a rational (exact value of the
decimal literal read), an infinity, or the `NaN` sentinel. -/
inductive JsNumber where
  | nan
  | posInf
  | negInf
  | num (q : ℚ)
deriving Repr, DecidableEq

/-- `10^e` over ℚ for a signed exponent. -/
def pow10 (e : Int) : ℚ :=
  if 0 ≤ e then (10 : ℚ) ^ e.toNat else ((10 : ℚ) ^ (-e).toNat)⁻¹

/-- The optional exponent part after `e`/`E` in a decimal literal. -/
def parseExp (r : Str) : Int :=
  let esign : Int := match r with | '-' :: _ => -1 | _ => 1
  let r2 : Str := match r with | '+' :: t => t | '-' :: t => t | t => t
  let eds := r2.takeWhile Char.isDigit
  if eds = [] then 0 else esign * (digitsToNat eds : Int)

/-- `Number.parseFloat(s)`: longest valid decimal-literal prefix after
trimming leading whitespace; `nan` when there is none. -/
def jsParseFloat (s : Str) : JsNumber :=
  let s1 := s.dropWhile isJsWS
  let neg : Bool := match s1 with | '-' :: _ => true | _ => false
  let rest := stripSign s1
  if isPre (str "Infinity") rest then (if neg then .negInf else .posInf)
  else
    let intDs := rest.takeWhile Char.isDigit
    let rest1 := rest.drop intDs.length
    let fracDs : Str := match rest1 with | '.' :: r => r.takeWhile Char.isDigit | _ => []
    let rest2 : Str := match rest1 with | '.' :: r => r.dropWhile Char.isDigit | _ => rest1
    if intDs = [] ∧ fracDs = [] then .nan
    else
      let mantissa : ℚ := (digitsToNat intDs : ℚ) + (digitsToNat fracDs : ℚ) / pow10 fracDs.length
      let expVal : Int := match rest2 with
        | 'e' :: r => parseExp r
        | 'E' :: r => parseExp r
        | _ => 0
      let v : ℚ := mantissa * pow10 expVal
      .num (if neg then -v else v)

/-- `Config.getInt`: `Number.parseInt(this.get(key), 10)`. -/
def getInt (data : Data) (key : Str) : Option Int := jsParseInt (get data key)

/-- `Config.getFloat`: `Number.parseFloat(this.get(key))`. -/
def getFloat (data : Data) (key : Str) : JsNumber := jsParseFloat (get data key)

/-- The last value inserted for key `k` of (normalised) section `s` in a
trace of `addConfig` calls. -/
def lastWritten (ws : List (Str × Str × Str)) (s k : Str) : Option Str :=
  ((ws.filter (fun w => normSect w.1 == s && w.2.1 == k)).getLast?).map (fun w => w.2.2)

/-- The name of the section opened by line `n` (after comment stripping and
trimming), when that line is a section header. -/
def headerName (n : Str) : Option Str :=
  let line := trim (stripComment n)
  if line ≠ [] ∧ line.head? = some '[' ∧ line.getLast? = some ']' then
    some ((line.drop 1).dropLast)
  else none

/-- The section names opened by the given lines, in order. -/
def headerNames (ls : List Str) : List Str := ls.filterMap headerName

/-- Malformed for `parseInt`: after trimming leading whitespace and one
optional sign, the first character is not a decimal digit. -/
def noIntPrefix (s : Str) : Prop :=
  ((stripSign (s.dropWhile isJsWS)).headD ' ').isDigit = false

/-- Malformed for `parseFloat`: after trimming leading whitespace and one
optional sign, the remainder starts with no `Infinity`, no digit, and no
`.`-digit pair — i.e. no valid decimal-literal prefix. -/
def noDecimalPrefix (s : Str) : Prop :=
  isPre (str "Infinity") (stripSign (s.dropWhile isJsWS)) = false ∧
  ((stripSign (s.dropWhile isJsWS)).headD ' ').isDigit = false ∧
  ((stripSign (s.dropWhile isJsWS)).head? = some '.' →
    (((stripSign (s.dropWhile isJsWS)).drop 1).headD ' ').isDigit = false)

/- ---------------------------------------------------------------------- -/
/- Helper lemmas -/

theorem jsSplitChar_ne_nil (sep : Char) : ∀ s : Str, jsSplitChar sep s ≠ []
  | [] => by simp [jsSplitChar]
  | c :: rest => by
    unfold jsSplitChar
    by_cases h : c = sep
    · simp [h]
    · simp only [h, if_false]
      cases hs : jsSplitChar sep rest <;> simp

theorem matchGetD (o : Option Str) :
    (match o with | none => ([] : Str) | some v => if v = [] then [] else v) = o.getD [] := by
  cases o with
  | none => rfl
  | some v => by_cases h : v = [] <;> simp [h]

/- ---------------------------------------------------------------------- -/
/- C3 -/

/-- C3 (counterexample): on the input `a = 1 \` + newline + `+ 2`, the parsed
value of key `a` is `"1+ 2"`, not the claimed `"1 + 2"`: the space before the
trailing backslash is removed by the per-line trim, and the remainders are
concatenated with no separator. -/
theorem c3_counterexample :
    (parseBuffer (str "a = 1 \\\n+ 2")).map (fun d => get d (str "a")) = .ok (str "1+ 2") ∧
    str "1+ 2" ≠ str "1 + 2" := by
  exact ⟨by rfl, by decide⟩

/-- C3 (amended): parsing the line `a = 1 \` followed by the line `+ 2`
yields exactly one entry, in the default section, with key `a` and value
`"1+ 2"`: the trailing backslash is dropped, each line is trimmed, and the
remainders are concatenated with no inserted separator. -/
theorem c3_continuation :
    parseBuffer (str "a = 1 \\\n+ 2") = .ok [(str "default", [(str "a", str "1+ 2")])] := by
  rfl

/- ---------------------------------------------------------------------- -/
/- C10 -/

/-- C10: `getStrings` never returns an empty array; on a key whose lookup is
absent (or stores the empty string) it returns the one-element array
containing the empty string, i.e. `''.split(',')`. -/
theorem c10_getStrings_nonempty (d : Data) (k : Str) :
    getStrings d k ≠ [] ∧ (get d k = [] → getStrings d k = [[]]) := by
  refine ⟨jsSplitChar_ne_nil ',' (get d k), fun h => ?_⟩
  simp [getStrings, h, jsSplitChar]

/-- C10 (witness): on the empty store, `getStrings` of a missing key is
`[""]`. -/
theorem c10_witness : getStrings [] (str "missing") = [[]] :=
  (c10_getStrings_nonempty [] (str "missing")).2 (by rfl)

/- ---------------------------------------------------------------------- -/
/- C2 -/

theorem matcherErrors_eq_nil_iff (value : Str) :
    matcherErrors value = [] ↔
      ((∀ p ∈ scanProps value, p ∈ validProps) ∧
       hasSub (str "..") value = false ∧
       (trim value).getLast? ≠ some ',' ∧
       value.count '(' = value.count ')') := by
  simp only [matcherErrors, List.append_eq_nil]
  constructor
  · rintro ⟨⟨⟨h1, h2⟩, h3⟩, h4⟩
    refine ⟨?_, ?_, ?_, ?_⟩
    · intro p hp
      by_cases hin : (scanProps value).filter (fun p => !(validProps.contains p)) = []
      · have := List.filter_eq_nil_iff.mp hin p hp
        simpa [List.elem_iff] using this
      · simp [hin] at h1
        exact h1 p hp
    · by_cases hd : hasSub (str "..") value
      · simp [hd] at h2
      · simpa using hd
    · by_cases hc : (trim value).getLast? = some ','
      · simp [hc] at h3
      · exact hc
    · by_cases hb : value.count '(' = value.count ')'
      · exact hb
      · simp [hb] at h4
  · rintro ⟨h1, h2, h3, h4⟩
    have hf : (scanProps value).filter (fun p => !(validProps.contains p)) = [] := by
      refine List.filter_eq_nil_iff.mpr (fun p hp => ?_)
      have := h1 p hp
      simp [List.elem_iff, this]
    simp only [hf, h2, h3, h4]
    simp [h1]

theorem validateMatcher_ok_iff (value : Str) (n : Nat) :
    validateMatcher value n = .ok () ↔ matcherErrors value = [] := by
  unfold validateMatcher
  by_cases h : matcherErrors value = [] <;> simp [h]

/-- C2: validation of `matchers` values.  `validateMatcher` accepts exactly
when every token matching `[rp].\w+` is in the whitelist `validProps`, the
value has no `..`, no trailing comma after trimming, and equal counts of `(`
and `)`.  When defects exist, all accumulated error messages are joined into
one failure message and raised together; `write` into the `matchers` section
raises exactly this joined message.  The defect-free value
`r.sub == p.sub && r.obj == p.obj` is accepted. -/
theorem c2_matcher_validation (value : Str) (n : Nat) :
    (validateMatcher value n = .ok () ↔
      ((∀ p ∈ scanProps value, p ∈ validProps) ∧
       hasSub (str "..") value = false ∧
       (trim value).getLast? ≠ some ',' ∧
       value.count '(' = value.count ')')) ∧
    (matcherErrors value ≠ [] →
      validateMatcher value n = .error (joinComma (matcherErrors value))) ∧
    (∀ (st : ParseState) (m : Nat) (line : Str) (i : Nat),
      st.sect = str "matchers" → indexOfChar line '=' = some i →
      matcherErrors (trim (line.drop (i + 1))) ≠ [] →
      write st m line = .error (joinComma (matcherErrors (trim (line.drop (i + 1)))))) ∧
    validateMatcher (str "r.sub == p.sub && r.obj == p.obj") n = .ok () := by
  refine ⟨(validateMatcher_ok_iff value n).trans (matcherErrors_eq_nil_iff value), ?_, ?_, by rfl⟩
  · intro hne
    simp [validateMatcher, hne]
  · intro st m line i hsect hidx hne
    simp only [write, hidx, hsect]
    simp [validateMatcher, hne]

/-- C2 (witness): writing `m = r.foo` while the active section is `matchers`
raises `Invalid properties: r.foo`. -/
theorem c2_witness :
    write ⟨[], str "matchers", [], [], []⟩ 5 (str "m = r.foo") =
      .error (str "Invalid properties: r.foo") := by
  have h := (c2_matcher_validation [] 5).2.2.1 ⟨[], str "matchers", [], [], []⟩ 5
    (str "m = r.foo") 2 rfl (by rfl) (by decide)
  exact h.trans (congrArg Except.error (by decide))

/- ---------------------------------------------------------------------- -/
/- C5 -/


theorem joinComma_cons_head (a : Str) (rest : List Str) (ha : a ≠ []) :
    (joinComma (a :: rest)).head? = a.head? := by
  cases rest with
  | nil => simp [joinComma, List.intercalate, List.intersperse]
  | cons b t =>
    have : joinComma (a :: b :: t) = a ++ (str ", " ++ joinComma (b :: t)) := by
      simp [joinComma, List.intercalate, List.intersperse]
    rw [this, List.head?_append_of_ne_nil _ ha]

theorem matcherErrors_mem (value a : Str) (h : a ∈ matcherErrors value) :
    (∃ l, a = str "Invalid properties: " ++ l) ∨ a = str "Found extra dots" ∨
      a = str "Unnecessary comma" ∨ a = str "Mismatched parentheses" := by
  unfold matcherErrors at h
  simp only [List.mem_append] at h
  rcases h with ((h | h) | h) | h <;> split at h <;> simp at h <;> simp [h]

theorem matcherErrors_head (value : Str) (a : Str) (rest : List Str)
    (h : matcherErrors value = a :: rest) :
    a.head? = some 'I' ∨ a.head? = some 'F' ∨ a.head? = some 'U' ∨ a.head? = some 'M' := by
  have hmem : a ∈ matcherErrors value := by rw [h]; exact List.mem_cons_self a rest
  rcases matcherErrors_mem value a hmem with ⟨l, rfl⟩ | rfl | rfl | rfl
  · left
    rw [List.head?_append_of_ne_nil _ (by decide)]
    rfl
  · right; left; rfl
  · right; right; left; rfl
  · right; right; right; rfl

/-- C5 (counterexample): on an input whose only nonempty line `foo` stands on
physical line 3, the missing-`=` failure cites line 1, the line's position
among the nonempty lines, not its 1-based position in the input text. -/
theorem c5_counterexample :
    parseBuffer (str "\n\nfoo") = .error (str "parse the content error : line 1") ∧
    str "parse the content error : line 1" ≠ str "parse the content error : line 3" :=
  ⟨by rfl, by decide⟩

/-- C5 (amended): every flushed logical line is split on the first `=` into
a trimmed key and a trimmed value and inserted; a flushed line with no `=`
raises exactly `parse the content error : line <n>` for the line number `n`
passed by the parser (the position among the NONEMPTY physical lines); a
flushed line containing `=` never raises this message (its only possible
failure is the differently-worded matcher-validation message). -/
theorem c5_missing_equals :
    (∀ (st : ParseState) (n : Nat) (line : Str),
      indexOfChar line '=' = none →
      write st n line = .error (str "parse the content error : line " ++ natStr n)) ∧
    (∀ (st : ParseState) (n : Nat) (line : Str) (i : Nat),
      indexOfChar line '=' = some i →
      write st n line =
        .ok { st with
              data := addConfig st.data st.sect (trim (line.take i)) (trim (line.drop (i + 1))),
              writes := st.writes ++ [(st.sect, trim (line.take i), trim (line.drop (i + 1)))] } ∨
      (st.sect = str "matchers" ∧
        write st n line = .error (joinComma (matcherErrors (trim (line.drop (i + 1))))) ∧
        matcherErrors (trim (line.drop (i + 1))) ≠ [])) ∧
    (∀ (st : ParseState) (n : Nat) (line m : Str) (j : Nat),
      write st n line = .error m → indexOfChar line '=' ≠ none →
      m ≠ str "parse the content error : line " ++ natStr j) ∧
    parseBuffer (str "\nbar") = .error (str "parse the content error : line 1") := by
  refine ⟨?_, ?_, ?_, by rfl⟩
  · intro st n line h
    simp [write, h]
  · intro st n line i h
    simp only [write, h]
    by_cases hs : st.sect = str "matchers"
    · by_cases he : matcherErrors (trim (line.drop (i + 1))) = []
      · left
        simp [hs, validateMatcher, he]
      · right
        refine ⟨hs, ?_, he⟩
        simp [hs, validateMatcher, he]
    · left
      simp [hs]
  · intro st n line m j hw hne heq
    obtain ⟨i, hi⟩ := Option.ne_none_iff_exists'.mp hne
    simp only [write, hi] at hw
    by_cases hs : st.sect = str "matchers"
    · by_cases he : matcherErrors (trim (line.drop (i + 1))) = []
      · simp [hs, validateMatcher, he] at hw
      · simp [hs, validateMatcher, he] at hw
        obtain ⟨a, rest, har⟩ : ∃ a rest, matcherErrors (trim (line.drop (i + 1))) = a :: rest := by
          cases hme : matcherErrors (trim (line.drop (i + 1))) with
          | nil => exact absurd hme he
          | cons a rest => exact ⟨a, rest, rfl⟩
        have hhead := matcherErrors_head _ a rest har
        have ha : a ≠ [] := by
          rcases hhead with h | h | h | h <;> (intro hnil; subst hnil; simp at h)
        have hm : m = joinComma (matcherErrors (trim (line.drop (i + 1)))) := by
          exact hw.symm
        have h1 : m.head? = a.head? := by
          rw [hm, har]
          exact joinComma_cons_head a rest ha
        have h2 : (str "parse the content error : line " ++ natStr j).head? = some 'p' := by
          rw [List.head?_append_of_ne_nil _ (by decide)]
          rfl
        rw [heq, h2] at h1
        rcases hhead with h | h | h | h <;> rw [h] at h1 <;> simp at h1
    · simp [hs, validateMatcher] at hw

/-- C5 (witness): a flushed line with no `=` raises the parse failure naming
the given line number. -/
theorem c5_witness :
    write initState 7 (str "foo") = .error (str "parse the content error : line 7") :=
  (c5_missing_equals.1 initState 7 (str "foo") rfl).trans (congrArg Except.error (by decide))


/- ---------------------------------------------------------------------- -/
/- C4 -/

theorem write_fields (st : ParseState) (nn : Nat) (line : Str) (st1 : ParseState)
    (h : write st nn line = .ok st1) :
    st1.sect = st.sect ∧ st1.currentLine = st.currentLine ∧ st1.seenSections = st.seenSections := by
  unfold write at h
  cases h1 : indexOfChar line '=' with
  | none => rw [h1] at h; simp at h
  | some i =>
    rw [h1] at h
    rcases h2 : (if st.sect = str "matchers"
        then validateMatcher (trim (line.drop (i + 1))) nn else .ok ()) with e | u
    · simp [h2] at h
    · simp [h2] at h
      rw [← h]
      exact ⟨rfl, rfl, rfl⟩

theorem processLine_seen (c : Nat) (st : ParseState) (n : Str) (i : Nat) (st' : ParseState)
    (h : processLine c st n i = .ok st') :
    (headerName n = none ∧ st'.seenSections = st.seenSections) ∨
    (∃ s, headerName n = some s ∧ s ∉ st.seenSections ∧ st'.seenSections = s :: st.seenSections) := by
  unfold processLine at h
  by_cases h0 : trim (stripComment n) = []
  · left
    refine ⟨by simp [headerName, h0], ?_⟩
    simp [h0] at h
    rw [← h]
  · by_cases h1 : (trim (stripComment n)).head? = some '[' ∧ (trim (stripComment n)).getLast? = some ']'
    · right
      simp only [if_neg h0, if_pos h1] at h
      by_cases h2 : st.currentLine = []
      · simp only [h2, ne_eq, not_true_eq_false, if_false] at h
        by_cases h3 : (trim (stripComment n)).tail.dropLast ∈ st.seenSections
        · simp [h3] at h
        · simp [h3] at h
          refine ⟨((trim (stripComment n)).tail.dropLast), by simp [headerName, h0, h1], h3, ?_⟩
          rw [← h]
      · cases hw : write st i st.currentLine with
        | error e => simp [h2, hw, Except.map] at h
        | ok st1 =>
          obtain ⟨hfs, hfc, hfe⟩ := write_fields _ _ _ _ hw
          simp only [h2, ne_eq, not_false_iff, if_true, Nat.add_sub_cancel, hw,
            Except.map] at h
          by_cases h3 : (trim (stripComment n)).tail.dropLast ∈ st1.seenSections
          · simp [h3] at h
          · simp [h3] at h
            refine ⟨((trim (stripComment n)).tail.dropLast), by simp [headerName, h0, h1],
              by rw [← hfe]; exact h3, ?_⟩
            rw [← h, ← hfe]
    · left
      refine ⟨by simp [headerName, h0, h1], ?_⟩
      simp only [if_neg h0, if_neg h1] at h
      by_cases h5 : (trim (stripComment n)).getLast? = some '\\'
      · simp only [h5, ne_eq, not_true_eq_false, false_or, if_false] at h
        by_cases h4 : i + 1 = c
        · simp only [h4, if_true] at h
          cases hw : write st c (st.currentLine ++ trim ((trim (stripComment n)).dropLast)) with
          | error e => simp [hw, Except.map] at h
          | ok st1 =>
            obtain ⟨hfs, hfc, hfe⟩ := write_fields _ _ _ _ hw
            simp [hw, Except.map] at h
            rw [← h]
            exact hfe
        · simp only [h4, if_false] at h
          simp at h
          rw [← h]
      · simp only [h5, ne_eq, not_false_iff, true_or, if_true] at h
        cases hw : write st (i + 1) (st.currentLine ++ trim (stripComment n)) with
        | error e => simp [hw, Except.map] at h
        | ok st1 =>
          obtain ⟨hfs, hfc, hfe⟩ := write_fields _ _ _ _ hw
          simp [hw, Except.map] at h
          rw [← h]
          exact hfe

theorem runLines_nodup (c : Nat) : ∀ (pairs : List (Nat × Str)) (st st' : ParseState),
    runLines c st pairs = .ok st' → st.seenSections.Nodup →
    (headerNames (pairs.map Prod.snd) ++ st.seenSections).Nodup := by
  intro pairs
  induction pairs with
  | nil => intro st st' h hnd; simpa [headerNames]
  | cons p rest ih =>
    intro st st' h hnd
    obtain ⟨idx, n⟩ := p
    unfold runLines at h
    cases hp : processLine c st n idx with
    | error e => rw [hp] at h; simp at h
    | ok st1 =>
      rw [hp] at h
      rcases processLine_seen c st n idx st1 hp with ⟨hn, hseen⟩ | ⟨s, hs, hmem, hseen⟩
      · have H := ih st1 st' h (hseen ▸ hnd)
        rw [hseen] at H
        simpa [headerNames, hn] using H
      · have hnd1 : st1.seenSections.Nodup := by
          rw [hseen]; exact List.nodup_cons.mpr ⟨hmem, hnd⟩
        have H := ih st1 st' h hnd1
        rw [hseen] at H
        have hperm : (headerNames (rest.map Prod.snd) ++ s :: st.seenSections).Perm
            (s :: (headerNames (rest.map Prod.snd) ++ st.seenSections)) := List.perm_middle
        have H2 := hperm.nodup H
        simpa [headerNames, hs] using H2

/-- C4 (counterexample): on `[p]`, an empty line, then `[p]`, parsing fails
with `Duplicated section: p at line 2` although the second header stands on
line 3 of the input text: empty physical lines are filtered out before line
numbering. -/
theorem c4_counterexample :
    parseBuffer (str "[p]\n\n[p]") = .error (str "Duplicated section: p at line 2") ∧
    str "Duplicated section: p at line 2" ≠ str "Duplicated section: p at line 3" :=
  ⟨by rfl, by decide⟩

/-- C4 (amended): a successful parse implies no section name was opened
twice; reaching a duplicate header (with no pending continuation) raises
exactly `Duplicated section: <name> at line <n>`, where `n` is the 1-based
position of the second header among the NONEMPTY physical lines of the
input, not among all input lines; a concrete instance with three nonempty
lines fails at line 3. -/
theorem c4_duplicate_section :
    (∀ (t : Str) (d : Data), parseBuffer t = .ok d → (headerNames (splitLines t)).Nodup) ∧
    (∀ (st : ParseState) (n s : Str) (idx total : Nat),
      trim (stripComment n) = str "[" ++ s ++ str "]" →
      st.currentLine = [] → s ∈ st.seenSections →
      processLine total st n idx = .error (dupMsg s (idx + 1))) ∧
    parseBuffer (str "[p]\nk = v\n[p]") = .error (str "Duplicated section: p at line 3") := by
  refine ⟨?_, ?_, by rfl⟩
  · intro t d hp
    unfold parseBuffer at hp
    cases hst : parseBufferSt t with
    | error e => rw [hst] at hp; simp [Except.map] at hp
    | ok st' =>
      unfold parseBufferSt at hst
      have H := runLines_nodup (splitLines t).length (splitLines t).enum initState st' hst
        (by simp [initState])
      simpa [initState, List.enum_map_snd] using H
  · intro st n s idx total hline hcur hmem
    have hline2 : trim (stripComment n) = '[' :: (s ++ [']']) := by
      rw [hline]; rfl
    unfold processLine
    rw [hline2]
    have hne : ('[' :: (s ++ [']']) : Str) ≠ [] := by simp
    have hhead : ('[' :: (s ++ [']']) : Str).head? = some '[' := rfl
    have hlast : ('[' :: (s ++ [']']) : Str).getLast? = some ']' := by
      show (('[' :: s) ++ [']'] : Str).getLast? = some ']'
      exact List.getLast?_concat _
    have htl : (('[' :: (s ++ [']']) : Str).tail).dropLast = s := by
      simp [List.dropLast_concat]
    simp [hlast, hcur, List.dropLast_concat, hmem]

/-- C4 (witness): processing the header `[p]` at index 1 with `p` already
seen raises `Duplicated section: p at line 2`. -/
theorem c4_witness :
    processLine 5 ⟨[], [], [], [str "p"], []⟩ (str "[p]") 1 =
      .error (str "Duplicated section: p at line 2") := by
  have h := c4_duplicate_section.2.1 ⟨[], [], [], [str "p"], []⟩ (str "[p]") (str "p") 1 5
    (by decide) rfl (by decide)
  exact h.trans (congrArg Except.error (by decide))

/- ---------------------------------------------------------------------- -/
/- C8 -/

/-- C8: when a section-header line is reached while the continuation buffer
is non-empty, the buffer is flushed by `write` into the previous,
still-active section (`st.sect` inside `write st`), attributed to line
number `idx` = `(idx + 1) - 1`, the line number just before the header; only
then is the new section opened (duplicate check included). -/
theorem c8_flush_at_header (total idx : Nat) (st : ParseState) (n s : Str)
    (hline : trim (stripComment n) = str "[" ++ s ++ str "]")
    (hcur : st.currentLine ≠ []) :
    processLine total st n idx =
      (write st idx st.currentLine).bind (fun st1 =>
        if s ∈ st1.seenSections then .error (dupMsg s (idx + 1))
        else .ok { st1 with
                    sect := s
                    currentLine := []
                    seenSections := s :: st1.seenSections }) := by
  have hline2 : trim (stripComment n) = '[' :: (s ++ [']']) := by rw [hline]; rfl
  have hlast : ('[' :: (s ++ [']']) : Str).getLast? = some ']' := by
    show (('[' :: s) ++ [']'] : Str).getLast? = some ']'
    exact List.getLast?_concat _
  unfold processLine
  rw [hline2]
  cases hw : write st idx st.currentLine with
  | error e =>
    simp [hcur, hlast, hw, Except.map, Except.bind, List.dropLast_concat]
  | ok st1 =>
    by_cases h3 : s ∈ st1.seenSections
    · simp [hcur, hlast, hw, Except.map, Except.bind, List.dropLast_concat, h3]
    · simp [hcur, hlast, hw, Except.map, Except.bind, List.dropLast_concat, h3]

/-- C8 (witness): a pending `a=1` is flushed into the (empty → default)
previous section when the header `[s]` is reached, and the new section `s`
is then opened. -/
theorem c8_witness :
    processLine 9 ⟨[], [], str "a=1", [], []⟩ (str "[s]") 3 =
      .ok ⟨[(str "default", [(str "a", str "1")])], str "s", [], [str "s"],
           [([], str "a", str "1")]⟩ := by
  have h := c8_flush_at_header 9 3 ⟨[], [], str "a=1", [], []⟩ (str "[s]") (str "s")
    (by decide) (by decide)
  exact h.trans (by rfl)

/- ---------------------------------------------------------------------- -/
/- C9 -/

/-- C9 (counterexample): on `a = 1 \` followed by the line `# c \`, the last
physical line ends with a continuation backslash, yet the pending buffer
`a = 1` is NOT flushed: the last line becomes blank after comment stripping
and is skipped before the end-of-input flush check, so parsing succeeds with
an empty store and a non-empty leftover buffer. -/
theorem c9_counterexample :
    parseBufferSt (str "a = 1 \\\n# c \\") = .ok ⟨[], [], str "a = 1", [], []⟩ ∧
    str "a = 1" ≠ [] := ⟨by rfl, by decide⟩

/-- C9 (amended): if the last of the nonempty physical lines is, after
comment stripping and trimming, non-blank and ends with the continuation
backslash, the pending logical line (including this line's contribution,
backslash dropped) is flushed and inserted even though no continuation
terminator was seen; concretely, `a = 1 \` alone parses to `a = 1`. -/
theorem c9_eof_flush :
    (∀ (total idx : Nat) (st : ParseState) (n : Str),
      idx + 1 = total →
      trim (stripComment n) ≠ [] →
      (trim (stripComment n)).getLast? = some '\\' →
      processLine total st n idx =
        (write st (idx + 1) (st.currentLine ++ trim ((trim (stripComment n)).dropLast))).map
          (fun st1 => { st1 with currentLine := [] })) ∧
    parseBuffer (str "a = 1 \\") = .ok [(str "default", [(str "a", str "1")])] := by
  refine ⟨?_, by rfl⟩
  intro total idx st n htotal h0 h5
  have hnothdr : ¬((trim (stripComment n)).head? = some '[' ∧
      (trim (stripComment n)).getLast? = some ']') := by
    rintro ⟨-, hl⟩
    rw [h5] at hl
    simp at hl
  unfold processLine
  simp [h0, hnothdr, h5, htotal]

/-- C9 (witness): processing `a = 1 \` as the last nonempty line flushes and
inserts `a = 1`. -/
theorem c9_witness :
    processLine 1 initState (str "a = 1 \\") 0 =
      .ok ⟨[(str "default", [(str "a", str "1")])], [], [], [], [([], str "a", str "1")]⟩ := by
  have h := c9_eof_flush.1 1 0 initState (str "a = 1 \\") rfl (by decide) (by decide)
  exact h.trans (by rfl)

/- ---------------------------------------------------------------------- -/
/- C7 -/

theorem jsParseInt_none (s : Str) (h : noIntPrefix s) : jsParseInt s = none := by
  unfold noIntPrefix at h
  unfold jsParseInt
  cases hr : stripSign (s.dropWhile isJsWS) with
  | nil => simp [hr]
  | cons c t =>
    rw [hr] at h
    simp only [List.headD_cons] at h
    simp [hr, List.takeWhile, h]

theorem jsParseFloat_nan (s : Str) (h : noDecimalPrefix s) : jsParseFloat s = .nan := by
  obtain ⟨h1, h2, h3⟩ := h
  unfold jsParseFloat
  cases hr : stripSign (s.dropWhile isJsWS) with
  | nil =>
    have hinf : isPre (str "Infinity") ([] : Str) = false := rfl
    simp [hr, hinf, List.takeWhile]
  | cons c t =>
    rw [hr] at h1 h2 h3
    simp only [List.headD_cons] at h2
    have hint : (c :: t).takeWhile Char.isDigit = [] := by
      simp [List.takeWhile, h2]
    by_cases hc : c = '.'
    · subst hc
      have h4 := h3 rfl
      simp only [List.drop_one, List.tail_cons] at h4
      have hfrac : t.takeWhile Char.isDigit = [] := by
        cases t with
        | nil => rfl
        | cons c2 t2 =>
          simp only [List.headD_cons] at h4
          simp [List.takeWhile, h4]
      simp [hr, h1, hint, hfrac]
    · simp [hr, h1, hint, hc]

/-- C7: `getBool` is the truthiness of `get`'s result (true iff the stored
string is non-empty), `getStrings` splits `get`'s result on comma, and
`getInt`/`getFloat` apply decimal parsing (`parseInt` base 10 /
`parseFloat`) to `get`'s result, yielding the not-a-number sentinel
(`none` / `JsNumber.nan`) — never a thrown failure, as both are total
functions — on text with no numeric prefix. -/
theorem c7_getters (d : Data) (k : Str) :
    (getBool d k = true ↔ get d k ≠ []) ∧
    getStrings d k = jsSplitChar ',' (get d k) ∧
    getInt d k = jsParseInt (get d k) ∧
    getFloat d k = jsParseFloat (get d k) ∧
    (noIntPrefix (get d k) → getInt d k = none) ∧
    (noDecimalPrefix (get d k) → getFloat d k = JsNumber.nan) := by
  refine ⟨?_, rfl, rfl, rfl, ?_, ?_⟩
  · simp [getBool, List.isEmpty_iff]
  · exact fun h => jsParseInt_none _ h
  · exact fun h => jsParseFloat_nan _ h

/-- C7 (witness): `12abc` parses as 12; `abc` gives the NaN sentinel for
both numeric getters. -/
theorem c7_witness :
    getInt [(str "default", [(str "x", str "12abc")])] (str "x") = some 12 ∧
    getInt [(str "default", [(str "x", str "abc")])] (str "x") = none ∧
    getFloat [(str "default", [(str "x", str "abc")])] (str "x") = JsNumber.nan := by
  refine ⟨by rfl, ?_, ?_⟩
  · exact (c7_getters [(str "default", [(str "x", str "abc")])] (str "x")).2.2.2.2.1 (by unfold noIntPrefix; decide)
  · exact (c7_getters [(str "default", [(str "x", str "abc")])] (str "x")).2.2.2.2.2
      ⟨by decide, by decide, by intro h; decide⟩

/- ---------------------------------------------------------------------- -/
/- C6 -/

theorem char_toLower_colon (c : Char) : Char.toLower c = ':' ↔ c = ':' := by
  have hdef : Char.toLower c =
      if c.toNat ≥ 65 ∧ c.toNat ≤ 90 then Char.ofNat (c.toNat + 32) else c := rfl
  rw [hdef]
  by_cases h : c.toNat ≥ 65 ∧ c.toNat ≤ 90
  · rw [if_pos h]
    constructor
    · intro he
      exfalso
      have hv : (c.toNat + 32).isValidChar := Or.inl (by omega)
      have hn : (Char.ofNat (c.toNat + 32)).toNat = c.toNat + 32 := by
        rw [Char.ofNat, dif_pos hv]
        rfl
      have h58 := congrArg Char.toNat he
      rw [hn] at h58
      have hcol : (':' : Char).toNat = 58 := rfl
      omega
    · intro he
      rw [he] at h
      exact absurd h (by decide)
  · rw [if_neg h]

theorem isPre_colons_lower (u : Str) :
    isPre (str "::") (jsLower u) = isPre (str "::") u := by
  show isPre [':', ':'] (jsLower u) = isPre [':', ':'] u
  cases u with
  | nil => rfl
  | cons c r =>
    cases r with
    | nil =>
      show (decide (':' = Char.toLower c) && isPre [':'] []) =
        (decide (':' = c) && isPre [':'] [])
      simp [isPre]
    | cons c2 r2 =>
      show (decide (':' = Char.toLower c) && (decide (':' = Char.toLower c2) && true)) =
        (decide (':' = c) && (decide (':' = c2) && true))
      have e1 : decide (':' = Char.toLower c) = decide (':' = c) := by
        apply decide_eq_decide.mpr
        constructor
        · intro hh; exact ((char_toLower_colon c).mp hh.symm).symm
        · intro hh; rw [← hh]; rfl
      have e2 : decide (':' = Char.toLower c2) = decide (':' = c2) := by
        apply decide_eq_decide.mpr
        constructor
        · intro hh; exact ((char_toLower_colon c2).mp hh.symm).symm
        · intro hh; rw [← hh]; rfl
      rw [e1, e2]

theorem findSubIdx_colons_lower (u : Str) :
    findSubIdx (str "::") (jsLower u) = none ↔ findSubIdx (str "::") u = none := by
  induction u with
  | nil => exact Iff.rfl
  | cons c r ih =>
    show findSubIdx (str "::") (Char.toLower c :: jsLower r) = none ↔ _
    rw [findSubIdx, findSubIdx]
    have hp : isPre (str "::") (Char.toLower c :: jsLower r) = isPre (str "::") (c :: r) :=
      isPre_colons_lower (c :: r)
    rw [hp]
    by_cases h : isPre (str "::") (c :: r) = true
    · rw [if_pos h, if_pos h]
    · rw [if_neg h, if_neg h, Option.map_eq_none', Option.map_eq_none']
      exact ih

theorem findSubIdx_no_colon (k : Str) (hk : ':' ∉ k) : findSubIdx (str "::") k = none := by
  induction k with
  | nil => rfl
  | cons c rest ih =>
    have hc : ¬(':' = c) := fun h => hk (h ▸ List.mem_cons_self c rest)
    have hrest : ':' ∉ rest := fun h => hk (List.mem_cons_of_mem c h)
    rw [findSubIdx]
    have hp : isPre (str "::") (c :: rest) = false := by
      show (decide (':' = c) && isPre [':'] rest) = false
      simp [hc]
    rw [hp]
    simp [ih hrest]

theorem findSubIdx_qualified (s k : Str) (hs : ':' ∉ s) :
    findSubIdx (str "::") (s ++ ':' :: ':' :: k) = some s.length := by
  induction s with
  | nil =>
    rw [List.nil_append, findSubIdx]
    have hp : isPre (str "::") (':' :: ':' :: k) = true := by
      show (decide (':' = ':') && (decide (':' = ':') && true)) = true
      simp
    rw [hp]
    rfl
  | cons c rest ih =>
    have hc : ¬(':' = c) := fun h => hs (h ▸ List.mem_cons_self c rest)
    have hrest : ':' ∉ rest := fun h => hs (List.mem_cons_of_mem c h)
    rw [List.cons_append, findSubIdx]
    have hp : isPre (str "::") (c :: (rest ++ ':' :: ':' :: k)) = false := by
      show (decide (':' = c) && isPre [':'] (rest ++ ':' :: ':' :: k)) = false
      simp [hc]
    rw [hp, ih hrest]
    rfl

theorem splitSeqAux_no_occ (sep : Str) (f : Nat) (s : Str)
    (h : findSubIdx sep s = none) : splitSeqAux sep f s = [s] := by
  cases f with
  | zero => rfl
  | succ f2 =>
    rw [splitSeqAux, h]

theorem jsSplitOn_qualified (s k : Str) (hs : ':' ∉ s) (hk : ':' ∉ k) :
    jsSplitOn (str "::") (s ++ str "::" ++ k) = [s, k] := by
  have happ : s ++ str "::" ++ k = s ++ ':' :: ':' :: k := by
    show s ++ [':', ':'] ++ k = s ++ ':' :: ':' :: k
    rw [List.append_assoc]
    rfl
  have hlen : (s ++ ':' :: ':' :: k).length + 1 = (s.length + (k.length + 2)) + 1 := by
    simp [List.length_append]
  have htake : (s ++ ':' :: ':' :: k).take s.length = s :=
    List.take_left s (':' :: ':' :: k)
  have hdrop : (s ++ ':' :: ':' :: k).drop (s.length + (str "::").length) = k := by
    show (s ++ ':' :: ':' :: k).drop (s.length + 2) = k
    rw [List.drop_append]
    rfl
  unfold jsSplitOn
  rw [happ, hlen, splitSeqAux, findSubIdx_qualified s k hs]
  simp only [htake, hdrop]
  rw [splitSeqAux_no_occ _ _ _ (findSubIdx_no_colon k hk)]

theorem jsLower_qualified (s k : Str) (hls : jsLower s = s) (hlk : jsLower k = k) :
    jsLower (s ++ str "::" ++ k) = s ++ str "::" ++ k := by
  unfold jsLower at *
  rw [List.map_append, List.map_append, hls, hlk]
  rfl

theorem get_qualified (d : Data) (s k : Str) (hs : ':' ∉ s) (hk : ':' ∉ k)
    (hls : jsLower s = s) (hlk : jsLower k = k) :
    get d (s ++ str "::" ++ k) = (lookup2 d s k).getD [] := by
  unfold get
  rw [jsLower_qualified s k hls hlk, jsSplitOn_qualified s k hs hk]
  simp only [List.length_cons, List.length_nil, List.headD_cons]
  rw [matchGetD]
  rfl

/-- C6: `get` never fails (it is a total function into `Str`); a key without
`::` is looked up (lower-cased) in the section `default`; when the addressed
section or key is absent the result is the empty string. -/
theorem c6_total_lookup (d : Data) :
    (∀ key : Str, hasSub (str "::") key = false →
      get d key = (lookup2 d DEFAULT_SECTION (jsLower key)).getD []) ∧
    (∀ s k : Str, ':' ∉ s → ':' ∉ k → jsLower s = s → jsLower k = k →
      lookup2 d s k = none → get d (s ++ str "::" ++ k) = []) := by
  constructor
  · intro key h
    unfold hasSub at h
    have hnone : findSubIdx (str "::") key = none :=
      Option.not_isSome_iff_eq_none.mp (by simp [h])
    have h2 : findSubIdx (str "::") (jsLower key) = none :=
      (findSubIdx_colons_lower key).mpr hnone
    unfold get
    unfold jsSplitOn
    rw [splitSeqAux_no_occ _ _ _ h2]
    simp only [List.length_cons, List.length_nil, List.headD_cons]
    rw [matchGetD]
    rfl
  · intro s k hs hk hls hlk habs
    rw [get_qualified d s k hs hk hls hlk, habs]
    rfl

/-- C6 (witness): a missing key without `::` on the empty store, and a
missing key in an existing section, both yield the empty string. -/
theorem c6_witness :
    get [] (str "K") = [] ∧ get [(str "s", [(str "a", str "1")])] (str "s::b") = [] := by
  constructor
  · exact ((c6_total_lookup []).1 (str "K") (by decide)).trans (by rfl)
  · exact (c6_total_lookup [(str "s", [(str "a", str "1")])]).2 (str "s") (str "b")
      (by decide) (by decide) (by decide) (by decide) (by rfl)

/- ---------------------------------------------------------------------- -/
/- C1 -/

theorem getAssoc_setAssoc {α : Type} (m : List (Str × α)) (k k2 : Str) (v : α) :
    getAssoc (setAssoc m k v) k2 = if k = k2 then some v else getAssoc m k2 := by
  induction m with
  | nil =>
    by_cases h : k = k2 <;> simp [setAssoc, getAssoc, h]
  | cons hd tl ih =>
    obtain ⟨k3, v3⟩ := hd
    by_cases h3 : k3 = k
    · subst h3
      by_cases h : k3 = k2 <;> simp [setAssoc, getAssoc, h]
    · by_cases h2 : k3 = k2
      · have hk : ¬(k = k2) := fun hh => h3 (h2.trans hh.symm)
        have hk2 : ¬(k2 = k) := fun hh => hk hh.symm
        simp [setAssoc, getAssoc, h3, h2, hk, hk2]
      · simp [setAssoc, getAssoc, h3, h2, ih]

theorem lookup2_addConfig (d : Data) (sec key v s k : Str) :
    lookup2 (addConfig d sec key v) s k =
      if normSect sec = s ∧ key = k then some v else lookup2 d s k := by
  unfold addConfig lookup2 normSect
  rw [getAssoc_setAssoc]
  by_cases hs : (if sec = [] then DEFAULT_SECTION else sec) = s
  · rw [if_pos hs]
    simp only [Option.some_bind]
    rw [getAssoc_setAssoc]
    by_cases hk : key = k
    · simp [hs, hk]
    · simp only [if_neg hk, hs, hk, and_false, if_false]
      cases hg : getAssoc d s with
      | none => simp [← hs, hg, getAssoc]
      | some item => simp [← hs, hg]
  · rw [if_neg hs]
    simp [hs]

theorem lastWritten_append (ws : List (Str × Str × Str)) (sec key v s k : Str) :
    lastWritten (ws ++ [(sec, key, v)]) s k =
      if normSect sec = s ∧ key = k then some v else lastWritten ws s k := by
  unfold lastWritten
  rw [List.filter_append]
  by_cases h : normSect sec = s ∧ key = k
  · have hf : List.filter (fun w => normSect w.1 == s && w.2.1 == k) [(sec, key, v)] =
        [(sec, key, v)] := by
      simp [List.filter, h.1, h.2]
    rw [hf, if_pos h, List.getLast?_concat]
    rfl
  · have hcond : (normSect sec == s && key == k) = false := by
      by_cases h1 : normSect sec = s
      · have h2 : ¬key = k := fun hk => h ⟨h1, hk⟩
        simp [h1, h2]
      · simp [h1]
    have hf : List.filter (fun w => normSect w.1 == s && w.2.1 == k) [(sec, key, v)] = [] := by
      simp [List.filter, hcond]
    rw [hf, List.append_nil, if_neg h]

theorem write_invW (st : ParseState) (nn : Nat) (line : Str) (st1 : ParseState)
    (hI : ∀ s k, lookup2 st.data s k = lastWritten st.writes s k)
    (h : write st nn line = .ok st1) :
    ∀ s k, lookup2 st1.data s k = lastWritten st1.writes s k := by
  unfold write at h
  cases h1 : indexOfChar line '=' with
  | none => rw [h1] at h; simp at h
  | some i =>
    rw [h1] at h
    rcases h2 : (if st.sect = str "matchers"
        then validateMatcher (trim (line.drop (i + 1))) nn else .ok ()) with e | u
    · simp [h2] at h
    · simp [h2] at h
      intro s k
      rw [← h]
      show lookup2 (addConfig st.data st.sect (trim (line.take i)) (trim (line.drop (i + 1)))) s k =
        lastWritten (st.writes ++ [(st.sect, trim (line.take i), trim (line.drop (i + 1)))]) s k
      rw [lookup2_addConfig, lastWritten_append, hI s k]

theorem processLine_invW (c : Nat) (st : ParseState) (n : Str) (i : Nat) (st1 : ParseState)
    (hI : ∀ s k, lookup2 st.data s k = lastWritten st.writes s k)
    (h : processLine c st n i = .ok st1) :
    ∀ s k, lookup2 st1.data s k = lastWritten st1.writes s k := by
  unfold processLine at h
  by_cases h0 : trim (stripComment n) = []
  · simp [h0] at h
    rw [← h]
    exact hI
  · by_cases h1 : (trim (stripComment n)).head? = some '[' ∧ (trim (stripComment n)).getLast? = some ']'
    · simp only [if_neg h0, if_pos h1] at h
      by_cases h2 : st.currentLine = []
      · simp only [h2, ne_eq, not_true_eq_false, if_false] at h
        by_cases h3 : (trim (stripComment n)).tail.dropLast ∈ st.seenSections
        · simp [h3] at h
        · simp [h3] at h
          rw [← h]
          exact hI
      · cases hw : write st i st.currentLine with
        | error e => simp [h2, hw, Except.map] at h
        | ok stw =>
          have hIw := write_invW st i st.currentLine stw hI hw
          simp only [h2, ne_eq, not_false_iff, if_true, Nat.add_sub_cancel, hw,
            Except.map] at h
          by_cases h3 : (trim (stripComment n)).tail.dropLast ∈ stw.seenSections
          · simp [h3] at h
          · simp [h3] at h
            rw [← h]
            exact hIw
    · simp only [if_neg h0, if_neg h1] at h
      by_cases h5 : (trim (stripComment n)).getLast? = some '\\'
      · simp only [h5, ne_eq, not_true_eq_false, false_or, if_false] at h
        by_cases h4 : i + 1 = c
        · simp only [h4, if_true] at h
          cases hw : write st c (st.currentLine ++ trim ((trim (stripComment n)).dropLast)) with
          | error e => simp [hw, Except.map] at h
          | ok stw =>
            have hIw := write_invW st c _ stw hI hw
            simp [hw, Except.map] at h
            rw [← h]
            exact hIw
        · simp only [h4, if_false] at h
          simp at h
          rw [← h]
          exact hI
      · simp only [h5, ne_eq, not_false_iff, true_or, if_true] at h
        cases hw : write st (i + 1) (st.currentLine ++ trim (stripComment n)) with
        | error e => simp [hw, Except.map] at h
        | ok stw =>
          have hIw := write_invW st (i + 1) _ stw hI hw
          simp [hw, Except.map] at h
          rw [← h]
          exact hIw

theorem runLines_invW (c : Nat) : ∀ (pairs : List (Nat × Str)) (st st2 : ParseState),
    runLines c st pairs = .ok st2 →
    (∀ s k, lookup2 st.data s k = lastWritten st.writes s k) →
    (∀ s k, lookup2 st2.data s k = lastWritten st2.writes s k) := by
  intro pairs
  induction pairs with
  | nil =>
    intro st st2 h hI
    unfold runLines at h
    simp at h
    rw [← h]
    exact hI
  | cons p rest ih =>
    intro st st2 h hI
    obtain ⟨idx, n⟩ := p
    unfold runLines at h
    cases hp : processLine c st n idx with
    | error e => rw [hp] at h; simp at h
    | ok stm =>
      rw [hp] at h
      exact ih stm st2 h (processLine_invW c st n idx stm hI hp)

/-- C1 (counterexample): the valid duplicate-free text `[sec]` + `A = 1`
parses, the last (only) value written for key `A` of section `sec` is `1`,
yet `get("sec::A")` returns the empty string, not `1`: `get` lower-cases the
qualified key before lookup while `addConfig` stores keys as written, so
upper-case keys do not round-trip. -/
theorem c1_counterexample :
    parseBufferSt (str "[sec]\nA = 1") =
      .ok ⟨[(str "sec", [(str "A", str "1")])], str "sec", [], [str "sec"],
           [(str "sec", str "A", str "1")]⟩ ∧
    lastWritten [(str "sec", str "A", str "1")] (str "sec") (str "A") = some (str "1") ∧
    get [(str "sec", [(str "A", str "1")])] (str "sec::A") = [] ∧
    ([] : Str) ≠ str "1" :=
  ⟨by rfl, by rfl, by rfl, by decide⟩

/-- C1 (amended): after a successful parse, querying a written key through
`get("section::key")` returns exactly the last value written for that key in
that (normalised) section — later insertions of the same key in the same
section overwrite silently — provided the section and key names are
lower-case (since `get` lower-cases the key) and colon-free (so the `::`
split addresses them exactly). -/
theorem c1_roundtrip (t : Str) (st : ParseState) (s k v : Str)
    (hp : parseBufferSt t = .ok st)
    (hs : ':' ∉ s) (hk : ':' ∉ k) (hls : jsLower s = s) (hlk : jsLower k = k)
    (hlast : lastWritten st.writes s k = some v) :
    get st.data (s ++ str "::" ++ k) = v := by
  have hI : ∀ s2 k2, lookup2 st.data s2 k2 = lastWritten st.writes s2 k2 := by
    unfold parseBufferSt at hp
    exact runLines_invW (splitLines t).length (splitLines t).enum initState st hp
      (fun s2 k2 => rfl)
  rw [get_qualified st.data s k hs hk hls hlk, hI s k, hlast]
  rfl

/-- C1 (witness): in `[s]` + `a = 1` + `a = 2`, the key `a` was written
twice and `get("s::a")` returns the last value `2`. -/
theorem c1_witness :
    get [(str "s", [(str "a", str "2")])] (str "s" ++ str "::" ++ str "a") = str "2" :=
  c1_roundtrip (str "[s]\na = 1\na = 2")
    ⟨[(str "s", [(str "a", str "2")])], str "s", [], [str "s"],
     [(str "s", str "a", str "1"), (str "s", str "a", str "2")]⟩
    (str "s") (str "a") (str "2") (by rfl) (by decide) (by decide) (by rfl) (by rfl) (by rfl)

end Config
